import Mathlib

/-!
Verification of the UART ring buffer driver (`Core/Src/uart_ring_buffer.c`).

The C code is shallowly embedded: C `uint16_t`/`size_t` arithmetic is
modelled over `Nat` with explicit `% UART_BUFFER_SIZE` (the C values never
exceed the machine width before the modulus, so `Nat` is faithful), C strings
become `List Nat` of their bytes (without the trailing terminator; indexing
past the end yields the terminator byte 0, as in C), NULL pointers become
`none`, and out-parameters become components of the returned tuple.
Blocking reads from the RX ring are modelled denotationally by an input
stream: the stream holds the bytes that arrive before the per-byte
availability timeout expires, and exhausting the stream corresponds to
`WaitForData` timing out.
-/

namespace UartRing

/-- UART_BUFFER_SIZE from uart_ring_buffer.c (line 17). -/
def UART_BUFFER_SIZE : Nat := 1024

/-- UART_ErrorTypeDef from uart_ring_buffer.h. -/
inductive UART_ErrorTypeDef where
  | UART_SUCCESS
  | UART_ERROR_TIMEOUT
  | UART_ERROR_BUFFER_FULL
  | UART_ERROR_BUFFER_EMPTY
  | UART_ERROR_INVALID_PARAM
  | UART_ERROR_NOT_FOUND
deriving DecidableEq, Repr

export UART_ErrorTypeDef (UART_SUCCESS UART_ERROR_TIMEOUT UART_ERROR_BUFFER_FULL
  UART_ERROR_BUFFER_EMPTY UART_ERROR_INVALID_PARAM UART_ERROR_NOT_FOUND)

/-- RingBuffer_TypeDef from uart_ring_buffer.h: a byte store plus head (next
write slot) and tail (next read slot).  The C array of `UART_BUFFER_SIZE`
bytes is modelled as a total function; only indices below
`UART_BUFFER_SIZE` are ever read or written. -/
structure RingBuffer_TypeDef where
  buffer : Nat → Nat
  head : Nat
  tail : Nat

/-- Representation invariant maintained by the code: both indices stay in
`[0, UART_BUFFER_SIZE)` (they are only ever assigned values reduced
`% UART_BUFFER_SIZE`). -/
def validRing (s : RingBuffer_TypeDef) : Prop :=
  s.head < UART_BUFFER_SIZE ∧ s.tail < UART_BUFFER_SIZE

instance (s : RingBuffer_TypeDef) : Decidable (validRing s) := by
  unfold validRing; infer_instance

/-- UART_Available (lines 127-130): `(SIZE + head - tail) % SIZE`.
On `Nat` this matches the C `uint16_t` expression exactly because
`SIZE + head ≤ 2047 < 2^16` never overflows. -/
def UART_Available (s : RingBuffer_TypeDef) : Nat :=
  (UART_BUFFER_SIZE + s.head - s.tail) % UART_BUFFER_SIZE

/-- StoreChar (lines 348-361): push one byte; fails with BUFFER_FULL when
`(head+1) % SIZE == tail`, mutating nothing. -/
def StoreChar (c : Nat) (s : RingBuffer_TypeDef) :
    UART_ErrorTypeDef × RingBuffer_TypeDef :=
  let next_head := (s.head + 1) % UART_BUFFER_SIZE
  if next_head = s.tail then
    (UART_ERROR_BUFFER_FULL, s)
  else
    (UART_SUCCESS,
      { buffer := fun i => if i = s.head then c else s.buffer i,
        head := next_head, tail := s.tail })

/-- UART_ReadChar (lines 58-73).  The C out-pointer `c` is modelled by the
`c_is_null` flag (NULL pointer) and the `Option Nat` component (the byte
written through it). -/
def UART_ReadChar (c_is_null : Bool) (s : RingBuffer_TypeDef) :
    UART_ErrorTypeDef × Option Nat × RingBuffer_TypeDef :=
  if c_is_null then (UART_ERROR_INVALID_PARAM, none, s)
  else if s.head = s.tail then (UART_ERROR_BUFFER_EMPTY, none, s)
  else (UART_SUCCESS, some (s.buffer s.tail),
        { s with tail := (s.tail + 1) % UART_BUFFER_SIZE })

/-- UART_Peek (lines 137-149): like UART_ReadChar but does not advance
`tail` (and hence returns no state). -/
def UART_Peek (c_is_null : Bool) (s : RingBuffer_TypeDef) :
    UART_ErrorTypeDef × Option Nat :=
  if c_is_null then (UART_ERROR_INVALID_PARAM, none)
  else if s.head = s.tail then (UART_ERROR_BUFFER_EMPTY, none)
  else (UART_SUCCESS, some (s.buffer s.tail))

/-- UART_WriteChar (lines 80-99): push into the TX ring.  The C code
busy-waits while the ring is full until the timeout expires; with no
concurrent ISR drain in the model, a full ring yields UART_ERROR_TIMEOUT. -/
def UART_WriteChar (c : Nat) (s : RingBuffer_TypeDef) :
    UART_ErrorTypeDef × RingBuffer_TypeDef :=
  let next_head := (s.head + 1) % UART_BUFFER_SIZE
  if next_head = s.tail then
    (UART_ERROR_TIMEOUT, s)
  else
    (UART_SUCCESS,
      { buffer := fun i => if i = s.head then c else s.buffer i,
        head := next_head, tail := s.tail })

/-- Loop body of UART_SendString (lines 112-118): write each byte, stopping
at the first error. -/
def sendLoop : List Nat → RingBuffer_TypeDef → UART_ErrorTypeDef × RingBuffer_TypeDef
  | [], s => (UART_SUCCESS, s)
  | c :: rest, s =>
    let r := UART_WriteChar c s
    if r.1 = UART_SUCCESS then sendLoop rest r.2 else r

/-- UART_SendString (lines 106-121): NULL string is rejected; otherwise the
bytes are written sequentially. -/
def UART_SendString (str : Option (List Nat)) (tx : RingBuffer_TypeDef) :
    UART_ErrorTypeDef × RingBuffer_TypeDef :=
  match str with
  | none => (UART_ERROR_INVALID_PARAM, tx)
  | some l => sendLoop l tx

/-- Abstraction function: the pending (pushed but not yet popped) bytes of a
ring, in FIFO order, read from `tail` for `UART_Available` steps. -/
def ringList (s : RingBuffer_TypeDef) : List Nat :=
  (List.range (UART_Available s)).map
    (fun i => s.buffer ((s.tail + i) % UART_BUFFER_SIZE))

/-- Repeatedly push a list of bytes with StoreChar; the Bool records whether
every push reported UART_SUCCESS. -/
def pushAll : List Nat → RingBuffer_TypeDef → RingBuffer_TypeDef × Bool
  | [], s => (s, true)
  | c :: rest, s =>
    let r := StoreChar c s
    if r.1 = UART_SUCCESS then pushAll rest r.2 else (r.2, false)

/-- Repeatedly pop with UART_ReadChar until the ring reports empty (fuel
bounds the recursion; `UART_BUFFER_SIZE` fuel always suffices). -/
def drain : Nat → RingBuffer_TypeDef → List Nat
  | 0, _ => []
  | fuel + 1, s =>
    match UART_ReadChar false s with
    | (UART_SUCCESS, some c, s') => c :: drain fuel s'
    | _ => []

/-! Ring arithmetic facts.  `UART_BUFFER_SIZE` is the literal 1024 here so
that `omega` can discharge the modular reasoning. -/

lemma ring_index_hit (h t : Nat) (hh : h < 1024) (ht : t < 1024) :
    (t + (1024 + h - t) % 1024) % 1024 = h := by omega

lemma ring_index_miss (h t i : Nat) (hh : h < 1024) (ht : t < 1024)
    (hi : i < (1024 + h - t) % 1024) : (t + i) % 1024 ≠ h := by omega

lemma ring_avail_push (h t : Nat) (hh : h < 1024) (ht : t < 1024)
    (hne : (h + 1) % 1024 ≠ t) :
    (1024 + (h + 1) % 1024 - t) % 1024 = (1024 + h - t) % 1024 + 1 := by omega

lemma ring_avail_pop (h t : Nat) (hh : h < 1024) (ht : t < 1024) (hne : h ≠ t) :
    (1024 + h - (t + 1) % 1024) % 1024 + 1 = (1024 + h - t) % 1024 := by omega

lemma ring_full_avail (h t : Nat) (hh : h < 1024) (ht : t < 1024)
    (heq : (h + 1) % 1024 = t) : (1024 + h - t) % 1024 = 1023 := by omega

lemma ring_pop_shift (t i : Nat) :
    ((t + 1) % 1024 + i) % 1024 = (t + (i + 1)) % 1024 := by omega

lemma ringList_length (s : RingBuffer_TypeDef) :
    (ringList s).length = UART_Available s := by
  simp [ringList]

lemma avail_lt (s : RingBuffer_TypeDef) : UART_Available s < UART_BUFFER_SIZE :=
  Nat.mod_lt _ (by decide)

/-- A successful StoreChar appends the byte to the abstract FIFO contents and
increments the available count. -/
lemma storeChar_spec (c : Nat) (s : RingBuffer_TypeDef) (hv : validRing s)
    (hnf : (s.head + 1) % UART_BUFFER_SIZE ≠ s.tail) :
    (StoreChar c s).1 = UART_SUCCESS ∧
    validRing (StoreChar c s).2 ∧
    UART_Available (StoreChar c s).2 = UART_Available s + 1 ∧
    ringList (StoreChar c s).2 = ringList s ++ [c] := by
  obtain ⟨hh, ht⟩ := hv
  simp only [StoreChar]
  rw [if_neg hnf]
  have hsz : UART_BUFFER_SIZE = 1024 := rfl
  have havail : UART_Available s = (1024 + s.head - s.tail) % 1024 := by
    simp [UART_Available, hsz]
  refine ⟨rfl, ⟨Nat.mod_lt _ (by omega), ht⟩, ?_, ?_⟩
  · simp only [UART_Available, hsz] at *
    exact ring_avail_push s.head s.tail hh ht (by simpa [hsz] using hnf)
  · have ha : UART_Available
        ({ buffer := fun i => if i = s.head then c else s.buffer i,
           head := (s.head + 1) % UART_BUFFER_SIZE,
           tail := s.tail } : RingBuffer_TypeDef) = UART_Available s + 1 := by
      simp only [UART_Available, hsz]
      exact ring_avail_push s.head s.tail hh ht (by simpa [hsz] using hnf)
    simp only [ringList, ha]
    rw [List.range_succ, List.map_append]
    congr 1
    · apply List.map_congr_left
      intro i hi
      rw [List.mem_range] at hi
      have hmiss : (s.tail + i) % UART_BUFFER_SIZE ≠ s.head := by
        rw [hsz]
        exact ring_index_miss s.head s.tail i hh ht (by rw [havail] at hi; exact hi)
      simp [hmiss]
    · have hhit : (s.tail + UART_Available s) % UART_BUFFER_SIZE = s.head := by
        rw [hsz, havail]
        exact ring_index_hit s.head s.tail hh ht
      simp [hhit]

/-- A StoreChar on a full ring fails with BUFFER_FULL and returns the state
unchanged. -/
lemma storeChar_full (c : Nat) (s : RingBuffer_TypeDef)
    (hf : (s.head + 1) % UART_BUFFER_SIZE = s.tail) :
    StoreChar c s = (UART_ERROR_BUFFER_FULL, s) := by
  simp [StoreChar, hf]

/-- A successful UART_ReadChar pops the head of the abstract FIFO contents. -/
lemma readChar_spec (s : RingBuffer_TypeDef) (hv : validRing s)
    (hne : s.head ≠ s.tail) :
    UART_ReadChar false s =
      (UART_SUCCESS, some (s.buffer s.tail),
        { s with tail := (s.tail + 1) % UART_BUFFER_SIZE }) ∧
    validRing { s with tail := (s.tail + 1) % UART_BUFFER_SIZE } ∧
    UART_Available { s with tail := (s.tail + 1) % UART_BUFFER_SIZE } + 1 =
      UART_Available s ∧
    ringList s =
      s.buffer s.tail :: ringList { s with tail := (s.tail + 1) % UART_BUFFER_SIZE } := by
  obtain ⟨hh, ht⟩ := hv
  have hsz : UART_BUFFER_SIZE = 1024 := rfl
  refine ⟨by simp [UART_ReadChar, hne], ⟨hh, Nat.mod_lt _ (by omega)⟩, ?_, ?_⟩
  · simp only [UART_Available, hsz]
    exact ring_avail_pop s.head s.tail hh ht hne
  · have ha : UART_Available s =
        UART_Available { s with tail := (s.tail + 1) % UART_BUFFER_SIZE } + 1 := by
      simp only [UART_Available, hsz]
      exact (ring_avail_pop s.head s.tail hh ht hne).symm
    simp only [ringList, ha]
    rw [List.range_succ_eq_map, List.map_cons, List.map_map]
    congr 1
    · have : s.tail % UART_BUFFER_SIZE = s.tail := Nat.mod_eq_of_lt (by omega)
      simp [this]
    · apply List.map_congr_left
      intro i hi
      simp only [Function.comp]
      rw [hsz]
      exact congrArg s.buffer (ring_pop_shift s.tail i).symm

/-- Pushing a whole list into a ring that keeps at most `N−1` bytes pending
succeeds byte for byte and appends the list to the FIFO contents. -/
lemma pushAll_spec (l : List Nat) : ∀ s : RingBuffer_TypeDef, validRing s →
    UART_Available s + l.length ≤ UART_BUFFER_SIZE - 1 →
    (pushAll l s).2 = true ∧ validRing (pushAll l s).1 ∧
    UART_Available (pushAll l s).1 = UART_Available s + l.length ∧
    ringList (pushAll l s).1 = ringList s ++ l := by
  induction l with
  | nil =>
    intro s hv _
    simpa [pushAll] using hv
  | cons c rest ih =>
    intro s hv hle
    have hsz : UART_BUFFER_SIZE = 1024 := rfl
    have hnf : (s.head + 1) % UART_BUFFER_SIZE ≠ s.tail := by
      intro heq
      have := ring_full_avail s.head s.tail (hsz ▸ hv.1) (hsz ▸ hv.2)
        (by rw [hsz] at heq; exact heq)
      simp only [UART_Available, hsz, List.length_cons] at hle
      omega
    obtain ⟨h1, h2, h3, h4⟩ := storeChar_spec c s hv hnf
    have hred : pushAll (c :: rest) s = pushAll rest (StoreChar c s).2 := by
      simp [pushAll, h1]
    rw [hred]
    obtain ⟨g1, g2, g3, g4⟩ := ih (StoreChar c s).2 h2
      (by rw [h3]; simp only [List.length_cons] at hle; omega)
    refine ⟨g1, g2, ?_, ?_⟩
    · rw [g3, h3]; simp [List.length_cons]; omega
    · rw [g4, h4, List.append_assoc, List.singleton_append]

/-- Draining with enough fuel returns exactly the FIFO contents. -/
lemma drain_eq : ∀ (fuel : Nat) (s : RingBuffer_TypeDef), validRing s →
    UART_Available s ≤ fuel → drain fuel s = ringList s := by
  intro fuel
  induction fuel with
  | zero =>
    intro s _ hle
    have ha : UART_Available s = 0 := Nat.le_zero.mp hle
    simp [drain, ringList, ha]
  | succ fuel ih =>
    intro s hv hle
    by_cases he : s.head = s.tail
    · have ha : UART_Available s = 0 := by
        simp only [UART_Available, he, UART_BUFFER_SIZE]
        omega
      simp [drain, UART_ReadChar, he, ringList, ha]
    · obtain ⟨hr, hv', ha', hl⟩ := readChar_spec s hv he
      have hred : drain (fuel + 1) s =
          s.buffer s.tail :: drain fuel { s with tail := (s.tail + 1) % UART_BUFFER_SIZE } := by
        simp [drain, hr]
      rw [hred, ih _ hv' (by omega)]
      exact hl.symm

/-- C1: for any sequence of pushes that keeps the pending count within
`N−1`, every push succeeds, `available()` equals the number of
pushed-but-not-popped bytes at every state, and popping returns the bytes
in exactly the order pushed (FIFO).  Since `s` ranges over all valid
states, every intermediate state of a push sequence is an instance. -/
theorem ring_fifo_available (s : RingBuffer_TypeDef) (l : List Nat)
    (hv : validRing s)
    (hfit : UART_Available s + l.length ≤ UART_BUFFER_SIZE - 1) :
    (pushAll l s).2 = true ∧
    UART_Available (pushAll l s).1 = UART_Available s + l.length ∧
    UART_Available (pushAll l s).1 = (ringList (pushAll l s).1).length ∧
    drain UART_BUFFER_SIZE (pushAll l s).1 = ringList s ++ l := by
  obtain ⟨h1, h2, h3, h4⟩ := pushAll_spec l s hv hfit
  refine ⟨h1, h3, (ringList_length _).symm, ?_⟩
  rw [drain_eq UART_BUFFER_SIZE _ h2 (Nat.le_of_lt (avail_lt _)), h4]

/-- Witness for C1 at a concrete state and byte list. -/
theorem ring_fifo_available_witness :
    validRing ⟨fun _ => 0, 0, 0⟩ ∧
    UART_Available ⟨fun _ => 0, 0, 0⟩ + [10, 20, 30].length ≤ UART_BUFFER_SIZE - 1 ∧
    ((pushAll [10, 20, 30] ⟨fun _ => 0, 0, 0⟩).2 = true ∧
     UART_Available (pushAll [10, 20, 30] ⟨fun _ => 0, 0, 0⟩).1 =
       UART_Available ⟨fun _ => 0, 0, 0⟩ + [10, 20, 30].length ∧
     UART_Available (pushAll [10, 20, 30] ⟨fun _ => 0, 0, 0⟩).1 =
       (ringList (pushAll [10, 20, 30] ⟨fun _ => 0, 0, 0⟩).1).length ∧
     drain UART_BUFFER_SIZE (pushAll [10, 20, 30] ⟨fun _ => 0, 0, 0⟩).1 =
       ringList ⟨fun _ => 0, 0, 0⟩ ++ [10, 20, 30]) :=
  ⟨by constructor <;> decide, by decide,
   ring_fifo_available ⟨fun _ => 0, 0, 0⟩ [10, 20, 30]
     (by constructor <;> decide) (by decide)⟩

/-- C7: a push onto a full ring (`(head+1) % N == tail`) fails with
BUFFER_FULL and mutates nothing (so `available()` is unchanged), and a pop
or peek on an empty ring (`head == tail`) fails with BUFFER_EMPTY and
leaves the state unchanged. -/
theorem ring_full_empty_errors (s₁ s₂ : RingBuffer_TypeDef) (c : Nat)
    (hfull : (s₁.head + 1) % UART_BUFFER_SIZE = s₁.tail)
    (hempty : s₂.head = s₂.tail) :
    StoreChar c s₁ = (UART_ERROR_BUFFER_FULL, s₁) ∧
    UART_Available (StoreChar c s₁).2 = UART_Available s₁ ∧
    UART_ReadChar false s₂ = (UART_ERROR_BUFFER_EMPTY, none, s₂) ∧
    UART_Peek false s₂ = (UART_ERROR_BUFFER_EMPTY, none) := by
  refine ⟨storeChar_full c s₁ hfull, ?_, ?_, ?_⟩
  · rw [storeChar_full c s₁ hfull]
  · simp [UART_ReadChar, hempty]
  · simp [UART_Peek, hempty]

/-- Witness for C7: a concrete full ring and a concrete empty ring. -/
theorem ring_full_empty_errors_witness :
    ((⟨fun _ => 0, 1023, 0⟩ : RingBuffer_TypeDef).head + 1) % UART_BUFFER_SIZE =
      (⟨fun _ => 0, 1023, 0⟩ : RingBuffer_TypeDef).tail ∧
    (⟨fun _ => 0, 5, 5⟩ : RingBuffer_TypeDef).head =
      (⟨fun _ => 0, 5, 5⟩ : RingBuffer_TypeDef).tail ∧
    (StoreChar 7 ⟨fun _ => 0, 1023, 0⟩ =
      (UART_ERROR_BUFFER_FULL, ⟨fun _ => 0, 1023, 0⟩) ∧
     UART_Available (StoreChar 7 ⟨fun _ => 0, 1023, 0⟩).2 =
      UART_Available ⟨fun _ => 0, 1023, 0⟩ ∧
     UART_ReadChar false ⟨fun _ => 0, 5, 5⟩ =
      (UART_ERROR_BUFFER_EMPTY, none, ⟨fun _ => 0, 5, 5⟩) ∧
     UART_Peek false ⟨fun _ => 0, 5, 5⟩ = (UART_ERROR_BUFFER_EMPTY, none)) :=
  ⟨by decide, by decide,
   ring_full_empty_errors ⟨fun _ => 0, 1023, 0⟩ ⟨fun _ => 0, 5, 5⟩ 7
     (by decide) (by decide)⟩

/-! StreamMatcher: the incremental pattern matcher embedded in
UART_WaitForString and UART_CopyUntil. -/

/-- C string indexing `str[i]`: `str` is the list of bytes before the
terminator, so index `str.length` reads the terminator byte 0 (farther
indices, never reached with a nonempty pattern, are also modelled as 0). -/
def cstrGet (str : List Nat) (i : Nat) : Nat := str.getD i 0

/-- Matcher step from the loop body of UART_WaitForString (lines 191-197),
repeated verbatim in UART_CopyUntil (lines 241-252): if `c == str[match_pos]`
advance, otherwise restart at 1 when `c == str[0]`, otherwise reset to 0. -/
def matchStep (str : List Nat) (match_pos : Nat) (c : Nat) : Nat :=
  if c = cstrGet str match_pos then match_pos + 1
  else if c = cstrGet str 0 then 1
  else 0

/-- Fold of matchStep over a byte list: the match state after feeding each
byte in turn. -/
def matchRun (str : List Nat) (m : Nat) : List Nat → Nat
  | [] => m
  | c :: rest => matchRun str (matchStep str m c) rest

/-- Matcher step as the spec words it (§4.3), for live states `m < L`:
if the fed byte equals `pattern[m]`, increment `m`; otherwise if it equals
`pattern[0]`, restart at `m = 1`; otherwise reset `m = 0`. -/
def specMatchStep (P : List Nat) (m : Fin P.length) (c : Nat) : Nat :=
  if c = P.get m then m.val + 1
  else if c = P.get ⟨0, Nat.lt_of_le_of_lt (Nat.zero_le _) m.isLt⟩ then 1
  else 0

lemma cstrGet_lt (str : List Nat) (i : Nat) (h : i < str.length) :
    cstrGet str i = str.get ⟨i, h⟩ := by
  simp [cstrGet, List.getD_eq_getElem?_getD, List.getElem?_eq_getElem h]

/-- C2: the code's matcher step agrees with the spec's step rule on every
live state `m < L`, and fed exactly the bytes of "OK\r\n" (79 75 13 10) the
matcher reports a match (state = pattern length) after the 4th byte and not
before. -/
theorem stream_matcher_spec :
    (∀ (P : List Nat) (m c : Nat) (h : m < P.length),
      matchStep P m c = specMatchStep P ⟨m, h⟩ c) ∧
    (∀ k : Fin 4,
      matchRun [79, 75, 13, 10] 0 (List.take k.val [79, 75, 13, 10]) ≠
        List.length [79, 75, 13, 10]) ∧
    matchRun [79, 75, 13, 10] 0 [79, 75, 13, 10] =
      List.length [79, 75, 13, 10] := by
  refine ⟨?_, by decide, by decide⟩
  intro P m c h
  have h0 : 0 < P.length := Nat.lt_of_le_of_lt (Nat.zero_le _) h
  simp [matchStep, specMatchStep, cstrGet_lt P m h, cstrGet_lt P 0 h0]

/-- Witness for C2's quantified part at a concrete pattern, state and byte. -/
theorem stream_matcher_spec_witness :
    matchStep [79] 0 79 = specMatchStep [79] (Fin.mk 0 (by decide)) 79 :=
  stream_matcher_spec.1 [79] 0 79 (by decide)

/-! UART_CopyUntil (lines 216-257).  The blocking byte source is modelled by
the `input` list: its elements are the bytes that arrive before the per-byte
availability timeout, in arrival order, and exhausting it corresponds to
`WaitForData` timing out. -/

/-- Overlay of freshly written bytes over the prior contents of a
caller-supplied buffer: bytes past the written region keep their old
values. -/
def overlay (w d : List Nat) : List Nat := w ++ d.drop w.length

/-- Loop of UART_CopyUntil (lines 228-256): while `buffer_pos <
buffer_size - 1`, wait for a byte (stream exhaustion = timeout, returning
without a terminator), append it to the destination, and step the matcher;
on full match write the terminator and succeed; when the destination fills,
write the terminator and report BUFFER_FULL.  Returns (error, bytes written
to the destination, remaining input). -/
def copyUntilLoop (end_str : List Nat) (buffer_size : Nat) :
    List Nat → List Nat → Nat → UART_ErrorTypeDef × List Nat × List Nat
  | [], acc, _ =>
    if acc.length < buffer_size - 1 then (UART_ERROR_TIMEOUT, acc, [])
    else (UART_ERROR_BUFFER_FULL, acc ++ [0], [])
  | c :: rest, acc, match_pos =>
    if acc.length < buffer_size - 1 then
      if c = cstrGet end_str match_pos then
        if match_pos + 1 = end_str.length then
          (UART_SUCCESS, acc ++ [c, 0], rest)
        else copyUntilLoop end_str buffer_size rest (acc ++ [c]) (match_pos + 1)
      else if c = cstrGet end_str 0 then
        copyUntilLoop end_str buffer_size rest (acc ++ [c]) 1
      else copyUntilLoop end_str buffer_size rest (acc ++ [c]) 0
    else (UART_ERROR_BUFFER_FULL, acc ++ [0], c :: rest)

/-- UART_CopyUntil (lines 216-257): guard (line 218) rejects NULL `end_str`,
NULL `buffer` or zero `buffer_size`; otherwise run the loop and overlay the
written bytes onto the destination's prior contents. -/
def UART_CopyUntil (end_str : Option (List Nat)) (dest : Option (List Nat))
    (buffer_size : Nat) (input : List Nat) :
    UART_ErrorTypeDef × Option (List Nat) × List Nat :=
  match end_str, dest with
  | some es, some d =>
    if buffer_size = 0 then (UART_ERROR_INVALID_PARAM, some d, input)
    else
      let r := copyUntilLoop es buffer_size input [] 0
      (r.1, some (overlay r.2.1 d), r.2.2)
  | none, _ => (UART_ERROR_INVALID_PARAM, dest, input)
  | some _, none => (UART_ERROR_INVALID_PARAM, none, input)

/-- Number of bytes the matcher consumes, starting from state `m`, before
the pattern completes; `none` if it never completes on this input.  The
branch structure (completion checked only in the advance branch) mirrors
the UART_CopyUntil loop exactly. -/
def matchLenFrom (str : List Nat) (m : Nat) : List Nat → Option Nat
  | [] => none
  | c :: rest =>
    if c = cstrGet str m then
      if m + 1 = str.length then some 1
      else Option.map (· + 1) (matchLenFrom str (m + 1) rest)
    else if c = cstrGet str 0 then Option.map (· + 1) (matchLenFrom str 1 rest)
    else Option.map (· + 1) (matchLenFrom str 0 rest)

lemma matchLenFrom_pos (str : List Nat) (m : Nat) (input : List Nat) (k : Nat)
    (h : matchLenFrom str m input = some k) : 1 ≤ k := by
  cases input with
  | nil => simp [matchLenFrom] at h
  | cons c rest =>
    simp only [matchLenFrom] at h
    split at h
    · split at h
      · simp at h; omega
      · rw [Option.map_eq_some'] at h; obtain ⟨a, _, ha⟩ := h; omega
    · split at h <;>
        (rw [Option.map_eq_some'] at h; obtain ⟨a, _, ha⟩ := h; omega)

/-- If the pattern completes after `k` bytes (matcher state `m`) and those
bytes fit in the remaining destination space, the loop succeeds, having
written exactly the consumed bytes plus the terminator. -/
lemma copyUntilLoop_success (es : List Nat) (cap : Nat) :
    ∀ (input acc : List Nat) (m k : Nat),
      matchLenFrom es m input = some k →
      acc.length + k ≤ cap - 1 →
      copyUntilLoop es cap input acc m =
        (UART_SUCCESS, acc ++ input.take k ++ [0], input.drop k) := by
  intro input
  induction input with
  | nil => intro acc m k hk _; simp [matchLenFrom] at hk
  | cons c rest ih =>
    intro acc m k hk hle
    have hk1 : 1 ≤ k := matchLenFrom_pos es m (c :: rest) k hk
    have hlt : acc.length < cap - 1 := by omega
    simp only [matchLenFrom] at hk
    simp only [copyUntilLoop, if_pos hlt]
    by_cases b1 : c = cstrGet es m
    · rw [if_pos b1]
      rw [if_pos b1] at hk
      by_cases b2 : m + 1 = es.length
      · rw [if_pos b2]
        rw [if_pos b2] at hk
        have hk' : k = 1 := by simpa using hk.symm
        subst hk'
        simp
      · rw [if_neg b2]
        rw [if_neg b2, Option.map_eq_some'] at hk
        obtain ⟨y, hy, hyk⟩ := hk
        rw [ih (acc ++ [c]) (m + 1) y hy (by simp only [List.length_append,
          List.length_cons, List.length_nil]; omega)]
        subst hyk
        simp [List.append_assoc]
    · rw [if_neg b1]
      rw [if_neg b1] at hk
      by_cases b3 : c = cstrGet es 0
      · rw [if_pos b3]
        rw [if_pos b3, Option.map_eq_some'] at hk
        obtain ⟨y, hy, hyk⟩ := hk
        rw [ih (acc ++ [c]) 1 y hy (by simp only [List.length_append,
          List.length_cons, List.length_nil]; omega)]
        subst hyk
        simp [List.append_assoc]
      · rw [if_neg b3]
        rw [if_neg b3, Option.map_eq_some'] at hk
        obtain ⟨y, hy, hyk⟩ := hk
        rw [ih (acc ++ [c]) 0 y hy (by simp only [List.length_append,
          List.length_cons, List.length_nil]; omega)]
        subst hyk
        simp [List.append_assoc]

/-- If the pattern does not complete within the remaining destination space
and enough input arrives, the loop fills the destination and reports
BUFFER_FULL, having written the first `cap − 1 − |acc|` bytes plus the
terminator. -/
lemma copyUntilLoop_full (es : List Nat) (cap : Nat) :
    ∀ (input acc : List Nat) (m : Nat),
      acc.length ≤ cap - 1 →
      cap - 1 - acc.length ≤ input.length →
      matchLenFrom es m (input.take (cap - 1 - acc.length)) = none →
      copyUntilLoop es cap input acc m =
        (UART_ERROR_BUFFER_FULL, acc ++ input.take (cap - 1 - acc.length) ++ [0],
         input.drop (cap - 1 - acc.length)) := by
  intro input
  induction input with
  | nil =>
    intro acc m h1 h2 _
    have hz : cap - 1 - acc.length = 0 := by
      simp only [List.length_nil] at h2; omega
    have hacc : ¬ acc.length < cap - 1 := by omega
    simp [copyUntilLoop, hacc, hz]
  | cons c rest ih =>
    intro acc m h1 h2 h3
    by_cases hlt : acc.length < cap - 1
    · have hr : cap - 1 - acc.length = (cap - 1 - (acc.length + 1)) + 1 := by
        omega
      rw [hr] at h3
      rw [List.take_succ_cons] at h3
      simp only [matchLenFrom] at h3
      simp only [copyUntilLoop, if_pos hlt]
      by_cases b1 : c = cstrGet es m
      · rw [if_pos b1] at h3 ⊢
        by_cases b2 : m + 1 = es.length
        · rw [if_pos b2] at h3; simp at h3
        · rw [if_neg b2] at h3 ⊢
          rw [Option.map_eq_none'] at h3
          rw [ih (acc ++ [c]) (m + 1)
            (by simp only [List.length_append, List.length_cons,
              List.length_nil]; omega)
            (by simp only [List.length_append, List.length_cons,
              List.length_nil, List.length_cons] at h2 ⊢; omega)
            (by simpa using h3)]
          simp only [List.length_append, List.length_cons, List.length_nil]
          rw [hr, List.take_succ_cons, List.drop_succ_cons]
          simp [List.append_assoc]
      · rw [if_neg b1] at h3 ⊢
        by_cases b3 : c = cstrGet es 0
        · rw [if_pos b3] at h3 ⊢
          rw [Option.map_eq_none'] at h3
          rw [ih (acc ++ [c]) 1
            (by simp only [List.length_append, List.length_cons,
              List.length_nil]; omega)
            (by simp only [List.length_append, List.length_cons,
              List.length_nil, List.length_cons] at h2 ⊢; omega)
            (by simpa using h3)]
          simp only [List.length_append, List.length_cons, List.length_nil]
          rw [hr, List.take_succ_cons, List.drop_succ_cons]
          simp [List.append_assoc]
        · rw [if_neg b3] at h3 ⊢
          rw [Option.map_eq_none'] at h3
          rw [ih (acc ++ [c]) 0
            (by simp only [List.length_append, List.length_cons,
              List.length_nil]; omega)
            (by simp only [List.length_append, List.length_cons,
              List.length_nil, List.length_cons] at h2 ⊢; omega)
            (by simpa using h3)]
          simp only [List.length_append, List.length_cons, List.length_nil]
          rw [hr, List.take_succ_cons, List.drop_succ_cons]
          simp [List.append_assoc]
    · have hz : cap - 1 - acc.length = 0 := by omega
      simp [copyUntilLoop, hlt, hz]

/-- C3: when the end pattern completes after `k ≤ cap − 1` consumed bytes,
UART_CopyUntil copies every consumed byte — including the bytes forming the
match — into the destination, null-terminates it, and returns success. -/
theorem copy_until_token_success (es d input : List Nat) (cap k : Nat)
    (hcap : 1 ≤ cap)
    (hk : matchLenFrom es 0 input = some k)
    (hfit : k ≤ cap - 1) :
    UART_CopyUntil (some es) (some d) cap input =
      (UART_SUCCESS, some (overlay (input.take k ++ [0]) d), input.drop k) := by
  have h := copyUntilLoop_success es cap input [] 0 k hk
    (by simpa using hfit)
  simp only [UART_CopyUntil, if_neg (by omega : ¬ cap = 0), h]
  simp

/-- Witness for C3: the spec's own example, "hello\r\n" against pattern
"\r\n" with capacity 16, copies all 7 bytes, terminates them and succeeds. -/
theorem copy_until_token_success_witness :
    matchLenFrom [13, 10] 0 [104, 101, 108, 108, 111, 13, 10] = some 7 ∧
    UART_CopyUntil (some [13, 10]) (some (List.replicate 16 42)) 16
        [104, 101, 108, 108, 111, 13, 10] =
      (UART_SUCCESS,
       some (overlay (List.take 7 [104, 101, 108, 108, 111, 13, 10] ++ [0])
         (List.replicate 16 42)),
       List.drop 7 [104, 101, 108, 108, 111, 13, 10]) :=
  ⟨by decide,
   copy_until_token_success [13, 10] (List.replicate 16 42)
     [104, 101, 108, 108, 111, 13, 10] 16 7 (by decide) (by decide) (by decide)⟩

/-- C4: when `cap − 1` bytes are consumed before the end pattern completes,
UART_CopyUntil returns BUFFER_FULL and the destination still holds the
partial content collected so far, null-terminated. -/
theorem copy_until_token_buffer_full (es d input : List Nat) (cap : Nat)
    (hcap : 1 ≤ cap)
    (hnom : matchLenFrom es 0 (input.take (cap - 1)) = none)
    (hlen : cap - 1 ≤ input.length) :
    UART_CopyUntil (some es) (some d) cap input =
      (UART_ERROR_BUFFER_FULL,
       some (overlay (input.take (cap - 1) ++ [0]) d),
       input.drop (cap - 1)) := by
  have h := copyUntilLoop_full es cap input [] 0 (by simp)
    (by simpa using hlen) (by simpa using hnom)
  simp only [UART_CopyUntil, if_neg (by omega : ¬ cap = 0), h]
  simp

/-- Witness for C4: 20 bytes with no "\r\n" against capacity 16 — the first
15 bytes are retained, terminated, and BUFFER_FULL is returned. -/
theorem copy_until_token_buffer_full_witness :
    matchLenFrom [13, 10] 0 (List.take 15 (List.replicate 20 65)) = none ∧
    UART_CopyUntil (some [13, 10]) (some (List.replicate 16 42)) 16
        (List.replicate 20 65) =
      (UART_ERROR_BUFFER_FULL,
       some (overlay (List.take 15 (List.replicate 20 65) ++ [0])
         (List.replicate 16 42)),
       List.drop 15 (List.replicate 20 65)) :=
  ⟨by decide,
   copy_until_token_buffer_full [13, 10] (List.replicate 16 42)
     (List.replicate 20 65) 16 (by decide) (by decide) (by decide)⟩

/-! FindStringInBuffer (lines 388-406) and UART_ExtractBetween
(lines 268-301). -/

/-- Loop of FindStringInBuffer (lines 399-403): try indices `i, i+1, ...`
(`fuel` counts the remaining iterations; `memcmp(buffer+i, str, L) == 0`
is the equality of the `L` bytes at offset `i` with `str`). -/
def findFrom (str buffer : List Nat) : Nat → Nat → Option Nat
  | 0, _ => none
  | fuel + 1, i =>
    if (buffer.drop i).take str.length = str then some i
    else findFrom str buffer fuel (i + 1)

/-- FindStringInBuffer (lines 388-406) for non-NULL arguments: an empty or
too-long pattern yields no result (the C SIZE_MAX becomes `none`);
otherwise scan offsets `0 .. buffer_len − str_len` in order. -/
def FindStringInBuffer (str buffer : List Nat) : Option Nat :=
  if str.length = 0 ∨ buffer.length < str.length then none
  else findFrom str buffer (buffer.length - str.length + 1) 0

/-- Spec-side notion used to characterise the literal substring search:
`str` occurs in `src` at offset `i`. -/
def occursAt (str src : List Nat) (i : Nat) : Prop :=
  (src.drop i).take str.length = str

instance (str src : List Nat) (i : Nat) : Decidable (occursAt str src i) := by
  unfold occursAt; infer_instance

lemma occursAt_length_le (str src : List Nat) (j : Nat)
    (hne : str.length ≠ 0) (h : occursAt str src j) :
    j + str.length ≤ src.length := by
  have hlen := congrArg List.length h
  simp only [occursAt, List.length_take, List.length_drop] at hlen
  omega

lemma findFrom_none (str buffer : List Nat) :
    ∀ (fuel i : Nat), findFrom str buffer fuel i = none ↔
      ∀ j, i ≤ j → j < i + fuel → ¬ occursAt str buffer j := by
  intro fuel
  induction fuel with
  | zero => intro i; simp [findFrom]; omega
  | succ fuel ih =>
    intro i
    simp only [findFrom]
    by_cases hocc : occursAt str buffer i
    · rw [if_pos (by simpa [occursAt] using hocc)]
      constructor
      · intro h; exact absurd h (by simp)
      · intro h; exact absurd hocc (h i (Nat.le_refl i) (by omega))
    · rw [if_neg (by simpa [occursAt] using hocc)]
      rw [ih (i + 1)]
      constructor
      · intro h j hj1 hj2
        rcases Nat.eq_or_lt_of_le hj1 with rfl | hlt
        · exact hocc
        · exact h j hlt (by omega)
      · intro h j hj1 hj2; exact h j (by omega) (by omega)

lemma findFrom_some (str buffer : List Nat) :
    ∀ (fuel i p : Nat), findFrom str buffer fuel i = some p →
      i ≤ p ∧ p < i + fuel ∧ occursAt str buffer p ∧
        ∀ j, i ≤ j → j < p → ¬ occursAt str buffer j := by
  intro fuel
  induction fuel with
  | zero => intro i p h; simp [findFrom] at h
  | succ fuel ih =>
    intro i p h
    simp only [findFrom] at h
    by_cases hocc : occursAt str buffer i
    · rw [if_pos (by simpa [occursAt] using hocc)] at h
      obtain rfl : i = p := by simpa using h
      exact ⟨Nat.le_refl i, by omega, hocc, fun j h1 h2 => absurd h1 (by omega)⟩
    · rw [if_neg (by simpa [occursAt] using hocc)] at h
      obtain ⟨g1, g2, g3, g4⟩ := ih (i + 1) p h
      refine ⟨by omega, by omega, g3, ?_⟩
      intro j hj1 hj2
      rcases Nat.eq_or_lt_of_le hj1 with rfl | hlt
      · exact hocc
      · exact g4 j hlt hj2

/-- FindStringInBuffer finds nothing exactly when the (nonempty) pattern
occurs nowhere. -/
lemma find_none_iff (str src : List Nat) (hne : str.length ≠ 0) :
    FindStringInBuffer str src = none ↔ ∀ i, ¬ occursAt str src i := by
  unfold FindStringInBuffer
  by_cases hlen : src.length < str.length
  · rw [if_pos (Or.inr hlen)]
    simp only [true_iff]
    intro i hocc
    have := occursAt_length_le str src i hne hocc
    omega
  · rw [if_neg (by push_neg; exact ⟨hne, by omega⟩)]
    rw [findFrom_none]
    constructor
    · intro h i
      by_cases hi : i < src.length - str.length + 1
      · exact h i (Nat.zero_le _) (by omega)
      · intro hocc
        have := occursAt_length_le str src i hne hocc
        omega
    · intro h j _ _
      exact h j

/-- FindStringInBuffer returns the first occurrence. -/
lemma find_some_first (str src : List Nat) (p : Nat)
    (h : FindStringInBuffer str src = some p) :
    occursAt str src p ∧ ∀ j, j < p → ¬ occursAt str src j := by
  unfold FindStringInBuffer at h
  split at h
  · exact absurd h (by simp)
  · obtain ⟨_, _, h3, h4⟩ := findFrom_some str src _ 0 p h
    exact ⟨h3, fun j hj => h4 j (Nat.zero_le _) hj⟩

/-- A first occurrence determines the result of FindStringInBuffer. -/
lemma find_eq_some_of_first (str src : List Nat) (p : Nat)
    (hne : str.length ≠ 0)
    (h1 : occursAt str src p) (h2 : ∀ j, j < p → ¬ occursAt str src j) :
    FindStringInBuffer str src = some p := by
  cases hf : FindStringInBuffer str src with
  | none => exact absurd h1 ((find_none_iff str src hne).mp hf p)
  | some p' =>
    obtain ⟨g1, g2⟩ := find_some_first str src p' hf
    rcases Nat.lt_trichotomy p p' with hlt | rfl | hgt
    · exact absurd h1 (g2 p hlt)
    · rfl
    · exact absurd g1 (h2 p' hgt)

/-- UART_ExtractBetween (lines 268-301): NULL-pointer or zero-size guard,
then a literal search for the start pattern, then a search for the end
pattern in the source after the end of the start match; on success the
bytes strictly between the matches are copied, truncated to
`dest_size − 1`, and terminated.  The second component is the destination
buffer contents after the call. -/
def UART_ExtractBetween (start_str end_str source dest : Option (List Nat))
    (dest_size : Nat) : UART_ErrorTypeDef × Option (List Nat) :=
  match start_str, end_str, source, dest with
  | some ss, some es, some src, some d =>
    if dest_size = 0 then (UART_ERROR_INVALID_PARAM, some d)
    else
      match FindStringInBuffer ss src with
      | none => (UART_ERROR_NOT_FOUND, some d)
      | some p =>
        match FindStringInBuffer es (src.drop (p + ss.length)) with
        | none => (UART_ERROR_NOT_FOUND, some d)
        | some q =>
          let copy_len := if dest_size ≤ q then dest_size - 1 else q
          (UART_SUCCESS,
           some (overlay ((src.drop (p + ss.length)).take copy_len ++ [0]) d))
  | _, _, _, _ => (UART_ERROR_INVALID_PARAM, dest)

/-- C5: UART_ExtractBetween performs a literal first-occurrence search for
the start pattern (NotFound when absent), then searches for the end pattern
strictly after the end of the start match (NotFound when absent), and on
success copies the bytes strictly between the matches, truncated to at most
`dest_size − 1` bytes and null-terminated; on the spec's example it
extracts "42". -/
theorem extract_between_spec :
    (∀ (ss es src d : List Nat) (cap : Nat), 0 < cap →
      (∀ i, ¬ occursAt ss src i) →
      UART_ExtractBetween (some ss) (some es) (some src) (some d) cap =
        (UART_ERROR_NOT_FOUND, some d)) ∧
    (∀ (ss es src d : List Nat) (cap p : Nat), 0 < cap →
      es.length ≠ 0 →
      occursAt ss src p → (∀ j, j < p → ¬ occursAt ss src j) →
      ss.length ≠ 0 →
      ((∀ i, ¬ occursAt es (src.drop (p + ss.length)) i) →
        UART_ExtractBetween (some ss) (some es) (some src) (some d) cap =
          (UART_ERROR_NOT_FOUND, some d)) ∧
      (∀ q, occursAt es (src.drop (p + ss.length)) q →
        (∀ j, j < q → ¬ occursAt es (src.drop (p + ss.length)) j) →
        UART_ExtractBetween (some ss) (some es) (some src) (some d) cap =
          (UART_SUCCESS,
           some (overlay ((src.drop (p + ss.length)).take (min q (cap - 1))
             ++ [0]) d)))) ∧
    UART_ExtractBetween (some [60, 97, 62]) (some [60, 47, 97, 62])
        (some [120, 60, 97, 62, 52, 50, 60, 47, 97, 62, 121])
        (some (List.replicate 8 42)) 8 =
      (UART_SUCCESS, some (overlay [52, 50, 0] (List.replicate 8 42))) := by
  refine ⟨?_, ?_, by decide⟩
  · intro ss es src d cap hcap hno
    have hne : ss.length ≠ 0 := by
      intro h0
      exact hno 0 (by simp [occursAt, List.eq_nil_of_length_eq_zero h0])
    have hf : FindStringInBuffer ss src = none :=
      (find_none_iff ss src hne).mpr hno
    simp [UART_ExtractBetween, Nat.pos_iff_ne_zero.mp hcap, hf]
  · intro ss es src d cap p hcap hesne hp1 hp2 hssne
    have hf : FindStringInBuffer ss src = some p :=
      find_eq_some_of_first ss src p hssne hp1 hp2
    constructor
    · intro hno
      have hg : FindStringInBuffer es (src.drop (p + ss.length)) = none :=
        (find_none_iff es _ hesne).mpr hno
      simp [UART_ExtractBetween, Nat.pos_iff_ne_zero.mp hcap, hf, hg]
    · intro q hq1 hq2
      have hg : FindStringInBuffer es (src.drop (p + ss.length)) = some q :=
        find_eq_some_of_first es _ q hesne hq1 hq2
      have hmin : (if cap ≤ q then cap - 1 else q) = min q (cap - 1) := by
        split <;> omega
      simp [UART_ExtractBetween, Nat.pos_iff_ne_zero.mp hcap, hf, hg, hmin]

/-- Witness for C5's quantified parts: the spec's example, driven through
the first-occurrence characterisation. -/
theorem extract_between_spec_witness :
    ((∀ i, ¬ occursAt [7] [1, 2] i) ∧
     UART_ExtractBetween (some [7]) (some [8]) (some [1, 2])
       (some [5, 5]) 4 = (UART_ERROR_NOT_FOUND, some [5, 5])) ∧
    (occursAt [60, 97, 62] [120, 60, 97, 62, 52, 50, 60, 47, 97, 62, 121] 1 ∧
     UART_ExtractBetween (some [60, 97, 62]) (some [60, 47, 97, 62])
        (some [120, 60, 97, 62, 52, 50, 60, 47, 97, 62, 121])
        (some (List.replicate 8 42)) 8 =
      (UART_SUCCESS,
       some (overlay
         ((List.drop (1 + List.length [60, 97, 62])
             [120, 60, 97, 62, 52, 50, 60, 47, 97, 62, 121]).take
           (min 2 (8 - 1)) ++ [0])
         (List.replicate 8 42)))) := by
  have hno : ∀ i, ¬ occursAt [7] [1, 2] i := by
    intro i h
    have hb := occursAt_length_le [7] [1, 2] i (by decide) h
    have hb2 : i < 2 := by
      simp only [List.length_cons, List.length_nil] at hb
      omega
    interval_cases i <;> exact absurd h (by decide)
  have hmin1 : ∀ j, j < 1 →
      ¬ occursAt [60, 97, 62] [120, 60, 97, 62, 52, 50, 60, 47, 97, 62, 121] j := by
    intro j hj
    interval_cases j
    decide
  have hmin2 : ∀ j, j < 2 →
      ¬ occursAt [60, 47, 97, 62]
        (List.drop (1 + List.length [60, 97, 62])
          [120, 60, 97, 62, 52, 50, 60, 47, 97, 62, 121]) j := by
    intro j hj
    interval_cases j <;> decide
  exact ⟨⟨hno,
    extract_between_spec.1 [7] [8] [1, 2] [5, 5] 4 (by decide) hno⟩,
   ⟨by decide,
    (extract_between_spec.2.1 [60, 97, 62] [60, 47, 97, 62]
        [120, 60, 97, 62, 52, 50, 60, 47, 97, 62, 121]
        (List.replicate 8 42) 8 1 (by decide) (by decide) (by decide)
        hmin1 (by decide)).2 2 (by decide) hmin2⟩⟩

/-- C10: whenever UART_ExtractBetween reports NotFound or InvalidParameter,
the destination buffer is returned completely unmodified. -/
theorem extract_between_frame (ss es src dest : Option (List Nat)) (cap : Nat)
    (h : (UART_ExtractBetween ss es src dest cap).1 = UART_ERROR_NOT_FOUND ∨
         (UART_ExtractBetween ss es src dest cap).1 = UART_ERROR_INVALID_PARAM) :
    (UART_ExtractBetween ss es src dest cap).2 = dest := by
  cases ss with
  | none => simp [UART_ExtractBetween]
  | some ss' =>
    cases es with
    | none => simp [UART_ExtractBetween]
    | some es' =>
      cases src with
      | none => simp [UART_ExtractBetween]
      | some src' =>
        cases dest with
        | none => simp [UART_ExtractBetween]
        | some d =>
          by_cases hc : cap = 0
          · simp [UART_ExtractBetween, hc]
          · simp only [UART_ExtractBetween, if_neg hc] at h ⊢
            cases hf : FindStringInBuffer ss' src' with
            | none => simp [hf]
            | some p =>
              cases hg : FindStringInBuffer es' (src'.drop (p + ss'.length)) with
              | none => simp [hf, hg]
              | some q => simp [hf, hg] at h

/-- Witness for C10 at a concrete NotFound call. -/
theorem extract_between_frame_witness :
    ((UART_ExtractBetween (some [99]) (some [98]) (some [1, 2, 3])
        (some [4, 5]) 2).1 = UART_ERROR_NOT_FOUND ∨
     (UART_ExtractBetween (some [99]) (some [98]) (some [1, 2, 3])
        (some [4, 5]) 2).1 = UART_ERROR_INVALID_PARAM) ∧
    (UART_ExtractBetween (some [99]) (some [98]) (some [1, 2, 3])
        (some [4, 5]) 2).2 = some [4, 5] :=
  ⟨by decide,
   extract_between_frame (some [99]) (some [98]) (some [1, 2, 3])
     (some [4, 5]) 2 (by decide)⟩

/-! Timeout arithmetic (lines 368-379).  HAL_GetTick returns a uint32_t
millisecond counter; the true (unwrapped) time is a `Nat` and the register
value is its residue mod 2^32. -/

/-- Width of the HAL tick counter (uint32_t). -/
def TICK_MOD : Nat := 4294967296

/-- C uint32 subtraction `a - b` on register values (both below 2^32). -/
def u32_sub (a b : Nat) : Nat := (a + TICK_MOD - b % TICK_MOD) % TICK_MOD

/-- IsTimeOutExpired (lines 368-371): `(HAL_GetTick() - timeout_start) >=
timeout_ms` in uint32 arithmetic, with `now` the current tick register value
and `timeout_start` the stored start register value. -/
def IsTimeOutExpired (timeout_ms timeout_start now : Nat) : Bool :=
  timeout_ms ≤ u32_sub now timeout_start

/-- ResetTimeout (lines 376-379): the new `timeout_start` is the current
tick. -/
def ResetTimeout (now : Nat) : Nat := now

/-- C9: for a start at true time `S` and a reading at true time `T ≥ S`,
with the counter having wrapped at most once in between (`T − S < 2^32`)
and a uint32 duration `d`, the fixed-width unsigned-difference test equals
the true elapsed-time comparison. -/
theorem timeout_expiry_wraparound (S T d : Nat) (hST : S ≤ T)
    (hwrap : T - S < TICK_MOD) (hd : d < TICK_MOD) :
    (IsTimeOutExpired d (S % TICK_MOD) (T % TICK_MOD) = true) ↔ d ≤ T - S := by
  have hsub : u32_sub (T % TICK_MOD) (S % TICK_MOD) = T - S := by
    simp only [u32_sub, TICK_MOD] at *
    omega
  simp [IsTimeOutExpired, hsub]

/-- Witness for C9 across one counter wrap: start 5 ticks before the wrap,
read 10 ticks after it, duration 12ms, elapsed 15ms — expired. -/
theorem timeout_expiry_wraparound_witness :
    4294967291 ≤ 4294967306 ∧
    4294967306 - 4294967291 < TICK_MOD ∧
    12 < TICK_MOD ∧
    ((IsTimeOutExpired 12 (4294967291 % TICK_MOD) (4294967306 % TICK_MOD)
       = true) ↔ 12 ≤ 4294967306 - 4294967291) :=
  ⟨by decide, by decide, by decide,
   timeout_expiry_wraparound 4294967291 4294967306 12
     (by decide) (by decide) (by decide)⟩

/-! UART_WaitForString (lines 169-206), timed model.  A stream entry
`(d, c)` means byte `c` becomes available `d` ticks after the loop enters
`WaitForData` (lines 413-424); since `WaitForData` calls `ResetTimeout` on
entry, the byte is obtained iff `d < timeout_ms`, and an exhausted stream
(no byte ever arrives) makes `WaitForData` give up `timeout_ms` ticks
later. -/

/-- Loop body of UART_WaitForString (lines 186-202) at the instant a byte is
consumed: step the matcher, then reset the timeout start to the current tick
exactly when the resulting match state shows progress (`match_pos > 0`,
lines 200-202). -/
def waitIter (str : List Nat) (match_pos : Nat) (c : Nat) (now ts : Nat) :
    Nat × Nat :=
  let m := matchStep str match_pos c
  (m, if 0 < m then ResetTimeout now else ts)

/-- Timed denotation of the UART_WaitForString loop (lines 180-206):
returns (result, finish tick, unconsumed stream). -/
def waitForStringTimed (str : List Nat) (timeout_ms : Nat) :
    List (Nat × Nat) → Nat → Nat → UART_ErrorTypeDef × Nat × List (Nat × Nat)
  | [], m, now =>
    if str.length ≤ m then (UART_SUCCESS, now, [])
    else (UART_ERROR_TIMEOUT, now + timeout_ms, [])
  | (d, c) :: rest, m, now =>
    if str.length ≤ m then (UART_SUCCESS, now, (d, c) :: rest)
    else if timeout_ms ≤ d then
      (UART_ERROR_TIMEOUT, now + timeout_ms, (d, c) :: rest)
    else waitForStringTimed str timeout_ms rest (matchStep str m c) (now + d)

/-- C8: (1) whenever feeding a consumed byte leaves the match state above 0,
the timeout start is reset to the current tick, i.e. the deadline becomes
the full duration again; (2) each wait for the next available byte is
bounded by the per-byte-availability timeout, so the whole call finishes
within `(number of stream entries + 1) · timeout_ms` ticks of byte-arrival
delays; (3) a steady trickle of partially-matching bytes (one 'A' every 5
ticks against pattern "AB", timeout 10) keeps the wait alive for `5·n`
ticks for every `n` — the overall wait extends indefinitely. -/
theorem wait_for_token_timeout_semantics :
    (∀ (str : List Nat) (m c now ts : Nat),
      0 < (waitIter str m c now ts).1 → (waitIter str m c now ts).2 = now) ∧
    (∀ (str : List Nat) (timeout_ms : Nat) (stream : List (Nat × Nat))
       (m now : Nat),
      (waitForStringTimed str timeout_ms stream m now).2.1 ≤
        now + stream.length * timeout_ms + timeout_ms) ∧
    (∀ (n now : Nat),
      waitForStringTimed [65, 66] 10 (List.replicate n (5, 65)) 1 now =
        (UART_ERROR_TIMEOUT, now + (5 * n + 10), [])) := by
  refine ⟨?_, ?_, ?_⟩
  · intro str m c now ts h
    simp only [waitIter] at h ⊢
    rw [if_pos h]
    rfl
  · intro str timeout_ms stream
    induction stream with
    | nil =>
      intro m now
      simp only [waitForStringTimed]
      split <;> simp
    | cons dc rest ih =>
      intro m now
      obtain ⟨d, c⟩ := dc
      simp only [waitForStringTimed]
      by_cases h1 : str.length ≤ m
      · rw [if_pos h1]
        exact le_trans (Nat.le_add_right _ _) (Nat.le_add_right _ _)
      · rw [if_neg h1]
        by_cases h2 : timeout_ms ≤ d
        · rw [if_pos h2]
          exact Nat.add_le_add_right (Nat.le_add_right _ _) _
        · rw [if_neg h2]
          have h3 := ih (matchStep str m c) (now + d)
          have hd : d < timeout_ms := by omega
          simp only [List.length_cons, Nat.succ_mul] at h3 ⊢
          omega
  · intro n
    induction n with
    | zero =>
      intro now
      simp [waitForStringTimed]
    | succ n ih =>
      intro now
      rw [List.replicate_succ]
      have hm : matchStep [65, 66] 1 65 = 1 := by decide
      simp only [waitForStringTimed]
      rw [if_neg (by decide), if_neg (by decide), hm, ih (now + 5)]
      have harith : now + 5 + (5 * n + 10) = now + (5 * (n + 1) + 10) := by
        omega
      rw [harith]

/-- Witness for C8's quantified parts at concrete inputs. -/
theorem wait_for_token_timeout_semantics_witness :
    (0 < (waitIter [65] 0 65 100 3).1 ∧ (waitIter [65] 0 65 100 3).2 = 100) ∧
    (waitForStringTimed [65] 7 [(2, 66), (3, 65)] 0 0).2.1 ≤
      0 + 2 * 7 + 7 ∧
    waitForStringTimed [65, 66] 10 (List.replicate 3 (5, 65)) 1 0 =
      (UART_ERROR_TIMEOUT, 0 + (5 * 3 + 10), []) :=
  ⟨⟨by decide, wait_for_token_timeout_semantics.1 [65] 0 65 100 3 (by decide)⟩,
   by
     have := wait_for_token_timeout_semantics.2.1 [65] 7 [(2, 66), (3, 65)] 0 0
     simpa using this,
   wait_for_token_timeout_semantics.2.2 3 0⟩

/-- UART_WaitForString (lines 169-206) with its parameter guard
(lines 171-173): NULL or zero-length pattern is rejected before any byte is
consumed; otherwise the timed loop runs from match state 0 and tick 0. -/
def UART_WaitForString (str : Option (List Nat)) (timeout_ms : Nat)
    (stream : List (Nat × Nat)) : UART_ErrorTypeDef × Nat × List (Nat × Nat) :=
  match str with
  | none => (UART_ERROR_INVALID_PARAM, 0, stream)
  | some p =>
    if p.length = 0 then (UART_ERROR_INVALID_PARAM, 0, stream)
    else waitForStringTimed p timeout_ms stream 0 0

/-- C6 counterexample: UART_ExtractBetween called with a zero-length start
pattern does not fail with InvalidParameter — the zero-length pattern slips
past the guard (line 271 checks only NULL and `dest_size == 0`) and
FindStringInBuffer turns it into NOT_FOUND (line 395). -/
theorem invalid_param_zero_length_counterexample :
    (UART_ExtractBetween (some []) (some [1]) (some [2, 3]) (some [4, 5]) 4).1 =
      UART_ERROR_NOT_FOUND ∧
    ¬ (UART_ExtractBetween (some []) (some [1]) (some [2, 3]) (some [4, 5]) 4).1 =
      UART_ERROR_INVALID_PARAM := by
  constructor <;> decide

/-- C6 amended: every NULL pointer argument (and a zero buffer size in
copy_until/extract_between) makes the operation fail fast with
InvalidParameter, leaving the ring state, the input stream and the
destination buffer untouched; but a zero-LENGTH pattern is rejected with
InvalidParameter only by wait_for_token — extract_between maps it to
NotFound, copy_until_token accepts it and keeps consuming input, and
write_string accepts the empty string, returning success. -/
theorem invalid_param_guards :
    (∀ (timeout_ms : Nat) (stream : List (Nat × Nat)),
      UART_WaitForString none timeout_ms stream =
        (UART_ERROR_INVALID_PARAM, 0, stream)) ∧
    (∀ (timeout_ms : Nat) (stream : List (Nat × Nat)),
      UART_WaitForString (some []) timeout_ms stream =
        (UART_ERROR_INVALID_PARAM, 0, stream)) ∧
    (∀ (dest : Option (List Nat)) (cap : Nat) (input : List Nat),
      UART_CopyUntil none dest cap input =
        (UART_ERROR_INVALID_PARAM, dest, input)) ∧
    (∀ (es : List Nat) (cap : Nat) (input : List Nat),
      UART_CopyUntil (some es) none cap input =
        (UART_ERROR_INVALID_PARAM, none, input)) ∧
    (∀ (es d : List Nat) (input : List Nat),
      UART_CopyUntil (some es) (some d) 0 input =
        (UART_ERROR_INVALID_PARAM, some d, input)) ∧
    (∀ (ss es src dest : Option (List Nat)) (cap : Nat),
      ss = none ∨ es = none ∨ src = none ∨ dest = none ∨ cap = 0 →
      UART_ExtractBetween ss es src dest cap =
        (UART_ERROR_INVALID_PARAM, dest)) ∧
    (∀ tx : RingBuffer_TypeDef,
      UART_SendString none tx = (UART_ERROR_INVALID_PARAM, tx)) ∧
    (∀ s : RingBuffer_TypeDef,
      UART_ReadChar true s = (UART_ERROR_INVALID_PARAM, none, s) ∧
      UART_Peek true s = (UART_ERROR_INVALID_PARAM, none)) ∧
    (∀ (es src d : List Nat) (cap : Nat), cap ≠ 0 →
      UART_ExtractBetween (some []) (some es) (some src) (some d) cap =
        (UART_ERROR_NOT_FOUND, some d)) ∧
    UART_CopyUntil (some []) (some [9, 9, 9, 9]) 4 [104, 105] =
      (UART_ERROR_TIMEOUT, some [104, 105, 9, 9], []) ∧
    (∀ tx : RingBuffer_TypeDef,
      UART_SendString (some []) tx = (UART_SUCCESS, tx)) := by
  refine ⟨fun _ _ => rfl, fun _ _ => rfl, ?_, fun _ _ _ => rfl,
    fun _ _ _ => rfl, ?_, fun _ => rfl, fun s => ⟨rfl, rfl⟩, ?_, by decide,
    fun _ => rfl⟩
  · intro dest cap input
    cases dest <;> rfl
  · intro ss es src dest cap h
    rcases h with rfl | rfl | rfl | rfl | rfl
    · rfl
    · cases ss <;> rfl
    · cases ss <;> cases es <;> rfl
    · cases ss <;> cases es <;> cases src <;> rfl
    · cases ss with
      | none => rfl
      | some ss' =>
        cases es with
        | none => rfl
        | some es' =>
          cases src with
          | none => rfl
          | some src' =>
            cases dest with
            | none => rfl
            | some d => simp [UART_ExtractBetween]
  · intro es src d cap hcap
    have hf : FindStringInBuffer [] src = none := by
      simp [FindStringInBuffer]
    simp [UART_ExtractBetween, hcap, hf]

/-- Witness for C6's amended claim at concrete inputs. -/
theorem invalid_param_guards_witness :
    UART_WaitForString none 100 [(1, 65)] =
      (UART_ERROR_INVALID_PARAM, 0, [(1, 65)]) ∧
    UART_CopyUntil (some [13]) (some [7, 7]) 0 [1] =
      (UART_ERROR_INVALID_PARAM, some [7, 7], [1]) ∧
    UART_ExtractBetween none (some [1]) (some [2]) (some [3]) 2 =
      (UART_ERROR_INVALID_PARAM, some [3]) ∧
    UART_ExtractBetween (some []) (some [1]) (some [2, 3]) (some [4, 5]) 4 =
      (UART_ERROR_NOT_FOUND, some [4, 5]) :=
  ⟨invalid_param_guards.1 100 [(1, 65)],
   invalid_param_guards.2.2.2.2.1 [13] [7, 7] [1],
   invalid_param_guards.2.2.2.2.2.1 none (some [1]) (some [2]) (some [3]) 2
     (Or.inl rfl),
   invalid_param_guards.2.2.2.2.2.2.2.2.1 [1] [2, 3] [4, 5] 4 (by decide)⟩

end UartRing
